import Mathlib

/-!
Shallow embedding of the DHT sensor decoder in `src/main.rs` of
`rust_weather_station` (Longan Nano board, DHT77 sensor).

Modelling conventions:
* The sampled GPIO line is a stream `levels : Nat → Bool`; every call to
  `in_pin.is_high()` in the Rust source consumes one position of the stream
  (the `delay_us(1)` calls between samples carry no extra information).
* `u8` arithmetic is `Nat` arithmetic with explicit `% 256` where the Rust
  operation wraps (`<<=`), and `|||`/`&&&` for the bit operations.
* The `f32` variables `t`, `h` only ever hold integers of magnitude ≤ 1001,
  all exactly representable in `f32`, and the only operations applied to
  them (assignment from a byte, adding a small integer quotient, negation,
  comparison with 1000.0) are exact on such values, so they are embedded
  as `Int`.
* The panicking Rust array indexing `data[index]` is embedded with an explicit
  bounds check returning `none` (a panic never returns).
* The pin/delay singletons (`IN_PIN`, `OUT_PIN`, `DELAY`) become a small
  record `GState`; the mode of the signal pin (`PA3`) is tracked as data.
-/

/-- A stream of sampled line levels: `levels p` is the value returned by the
`p`-th call to `is_high()` during one capture. -/
abbrev Levels := Nat → Bool

/-- Constant `count_` of the source: spin counts strictly above this threshold
classify a transition as bit value 1. -/
def count_ : Nat := 22

/-- Constant `maxtimings_` of the source: number of tracked transitions. -/
def maxtimings_ : Nat := 85

/-- The inner spin loop of `read_data`:
`while in_pin.is_high() == laststate { counter += 1; delay; if counter == 255 { break } }`.
Returns the final `counter` and the stream position after the loop.  `fuel`
is `255 - counter`; `spinWait` starts it at 255, so the fuel never runs out
before `counter` reaches the 255 cap. -/
def spinAux (levels : Levels) (laststate : Bool) : Nat → Nat → Nat → Nat × Nat
  | counter, pos, 0 => (counter, pos)
  | counter, pos, fuel + 1 =>
    if levels pos = laststate then
      if counter + 1 = 255 then (255, pos + 1)
      else spinAux levels laststate (counter + 1) (pos + 1) fuel
    else (counter, pos + 1)

/-- One transition wait, started with `counter = 0` as in the source. -/
def spinWait (levels : Levels) (laststate : Bool) (pos : Nat) : Nat × Nat :=
  spinAux levels laststate 0 pos 255

/-- State of the capture loop of `read_data`: loop counter `i`, packed bit
count `j`, current stream position, `laststate`, and the 5-byte `data`
array (kept as a list of naturals `< 256`). -/
structure CapSt where
  i : Nat
  j : Nat
  pos : Nat
  laststate : Bool
  data : List Nat
deriving DecidableEq, Repr

/-- The transition-counting loop of `read_data` (`while i < maxtimings_`),
with `fuel = maxtimings_ - st.i`.  Returns the final state and a flag that
is `true` iff a spin wait hit the 255 cap (the `break`).  Returns `none`
when the source would panic on `data[index]` with `index` out of bounds. -/
def captureLoop (levels : Levels) : Nat → CapSt → Option (CapSt × Bool)
  | 0, st => some (st, false)
  | fuel + 1, st =>
    let sc := spinWait levels st.laststate st.pos
    let laststate' := levels sc.2
    let pos' := sc.2 + 1
    if sc.1 = 255 then
      some ({ st with pos := pos', laststate := laststate' }, true)
    else if 4 ≤ st.i ∧ st.i % 2 = 0 then
      let index := st.j / 8
      if index < 5 then
        let b1 := (st.data.getD index 0 <<< 1) % 256
        let b2 := if count_ < sc.1 then b1 ||| 1 else b1
        captureLoop levels fuel
          { i := st.i + 1, j := st.j + 1, pos := pos', laststate := laststate',
            data := st.data.set index b2 }
      else none
    else
      captureLoop levels fuel { st with i := st.i + 1, pos := pos', laststate := laststate' }

/-- Initial capture state: `i = 0`, `j = 0`, `laststate = true`,
`data = [0, 0, 0, 0, 0]`. -/
def initCapSt : CapSt := ⟨0, 0, 0, true, [0, 0, 0, 0, 0]⟩

/-- The whole capture phase of `read_data`. -/
def capture (levels : Levels) : Option (CapSt × Bool) :=
  captureLoop levels maxtimings_ initCapSt

/-- The checksum acceptance test of `read_data`, line 128:
`data[4] == ((data[0] + data[1] + data[2] + data[3]) & 0xFF)`; each `u8`
addition wraps modulo 256. -/
def checksumOk (data : List Nat) : Bool :=
  data.getD 4 0 == ((((((data.getD 0 0 + data.getD 1 0) % 256
      + data.getD 2 0) % 256 + data.getD 3 0) % 256) &&& 0xFF))

/-- The three-band fractional temperature term (lines 134–141):
`value = data[3] % 128`; band `0..=9` adds `value / 10`, band `10..=100`
adds `value / 100`, otherwise `value / 1000` (integer division). -/
def fracTerm (b3 : Nat) : Nat :=
  let value := b3 % 128
  if value ≤ 9 then b3 % 128 / 10
  else if value ≤ 100 then b3 % 128 / 100
  else b3 % 128 / 1000

/-- Temperature conversion (lines 132–146): integer part `data[2]`, plus
the fractional term, negated when `data[3] >= 128`. -/
def tempOf (b2 b3 : Nat) : Int :=
  let t : Int := (b2 : Int) + (fracTerm b3 : Int)
  if 128 ≤ b3 then -t else t

/-- The conversion performed in the validated branch of `read_data`:
`(t, h)` with `t` from `data[2]`/`data[3]` and `h = data[0]`. -/
def convertReading (data : List Nat) : Int × Int :=
  (tempOf (data.getD 2 0) (data.getD 3 0), (data.getD 0 0 : Int))

/-- Mode of the signal pin `PA3`. -/
inductive PinMode
  | output
  | input
deriving DecidableEq, Repr

/-- Pin conversion `into_pull_up_input` (line 91). -/
def intoPullUpInput (_p : PinMode) : PinMode := PinMode.input

/-- Pin conversion `into_push_pull_output` (line 164). -/
def intoPushPullOutput (_p : PinMode) : PinMode := PinMode.output

/-- The global singletons used by `read_data`: presence of `IN_PIN` and
`DELAY`, and the contents of the `OUT_PIN` slot. -/
structure GState where
  in_pin : Bool
  out_pin : Option PinMode
  delay : Bool
deriving DecidableEq, Repr

/-- The error message returned by `read_data`. -/
def errMsg : String := "Could not read values!"

/-- Function `read_data` (lines 56–177).  The pin/delay singletons are read under
`free`; when all three are present the capture runs (`replaced = true`),
the pin is switched to input, the bits are captured, the pin is restored
to push-pull output, and the `(t, h)` pair — set by the validated branch,
or left at the `1001.0` sentinels — decides `Ok` vs `Err` via
`t < 1000.0 && h < 1000.0`.  Returns `none` when the capture panics. -/
def read_data (levels : Levels) (gs : GState) : Option (GState × Except String (Int × Int)) :=
  if gs.in_pin = true then
    match gs.out_pin with
    | none => some (gs, Except.error errMsg)
    | some outPin =>
      if gs.delay = true then
        let inPin := intoPullUpInput outPin
        match capture levels with
        | none => none
        | some (st, _timedOut) =>
          let th : Int × Int :=
            if 40 ≤ st.j ∧ checksumOk st.data = true then convertReading st.data
            else (1001, 1001)
          let gs' : GState := { gs with out_pin := some (intoPushPullOutput inPin) }
          if th.1 < 1000 ∧ th.2 < 1000 then some (gs', Except.ok th)
          else some (gs', Except.error errMsg)
      else some ({ gs with out_pin := none }, Except.error errMsg)
  else some (gs, Except.error errMsg)

/-- Constant `UPDATE_INTERVAL` (line 51). -/
def UPDATE_INTERVAL : Nat := 3

/-- The `TIMER1` interrupt handler (lines 182–225): gates on
`TIMER_COUNTER % UPDATE_INTERVAL == 1`, increments the counter, and when
the gate fires runs `read_data` and stores either the decoded pair or the
pair `(112.0, 112.0)` into the `DATA` slot (when the slot is occupied).
Returns the new counter, pin state and `DATA` slot; `none` if `read_data`
panicked. -/
def TIMER1 (levels : Levels) (timerCounter : Nat) (gs : GState)
    (dataSlot : Option (Int × Int)) : Option (Nat × GState × Option (Int × Int)) :=
  let doStuff := timerCounter % UPDATE_INTERVAL = 1
  let tc' := timerCounter + 1
  if doStuff then
    match read_data levels gs with
    | none => none
    | some (gs', Except.ok v) => some (tc', gs', dataSlot.map (fun _ => v))
    | some (gs', Except.error _) => some (tc', gs', dataSlot.map (fun _ => (112, 112)))
  else some (tc', gs, dataSlot)

/-! ### Declarative description of the capture (for claim C8)

`dataBitsAux` walks the same transition structure as `captureLoop` but
records only the classified data bits: the first four transitions are
discarded, every other transition from the fifth on yields a bit, and a
spin count above `count_` is bit 1. -/

/-- The list of data bits a capture starting at `(i, pos, laststate)` with
the given fuel classifies, in capture order. -/
def dataBitsAux (levels : Levels) : Nat → Nat → Nat → Bool → List Bool
  | 0, _, _, _ => []
  | fuel + 1, i, pos, laststate =>
    let sc := spinWait levels laststate pos
    let laststate' := levels sc.2
    if sc.1 = 255 then []
    else if 4 ≤ i ∧ i % 2 = 0 then
      decide (count_ < sc.1) :: dataBitsAux levels fuel (i + 1) (sc.2 + 1) laststate'
    else dataBitsAux levels fuel (i + 1) (sc.2 + 1) laststate'

/-- The data bits of a whole capture. -/
def dataBits (levels : Levels) : List Bool :=
  dataBitsAux levels maxtimings_ 0 0 true

/-- MSB-first value of a bit list. -/
def bitsToNat (bs : List Bool) : Nat :=
  bs.foldl (fun acc b => 2 * acc + (if b then 1 else 0)) 0

/-- The 8-bit chunk of a bit list that belongs to byte `k`. -/
def byteChunk (bs : List Bool) (k : Nat) : List Bool :=
  (bs.drop (8 * k)).take 8

/-! ### Concrete level streams used as test inputs -/

/-- Sample stream realizing a prescribed list of spin counts: for each
transition, `c` samples equal to the current `laststate` (always `true`
with this construction), one differing sample, and one sample re-reading
`true` into `laststate`.  Positions beyond the list read `true`, so the
stream goes idle (times out) after the listed transitions. -/
def traceList (cs : List Nat) : List Bool :=
  (cs.map (fun c => List.replicate c true ++ [false, true])).flatten

/-- The level stream of `traceList`. -/
def mkLevels (cs : List Nat) : Levels := fun p => (traceList cs).getD p true

/-- MSB-first bits of one byte. -/
def byteBitsMSB (n : Nat) : List Bool :=
  (List.range 8).map (fun k => n.testBit (7 - k))

/-- MSB-first bits of a frame. -/
def frameBits (frame : List Nat) : List Bool :=
  (frame.map byteBitsMSB).flatten

/-- Spin-count list encoding a 5-byte frame: four preamble transitions,
then for every bit one data transition (spin count 30 for a 1, 0 for a 0)
followed by one separator transition. -/
def frameCounters (frame : List Nat) : List Nat :=
  [0, 0, 0, 0] ++ ((frameBits frame).map (fun b => [if b then 30 else 0, 0])).flatten

/-- A fully populated singleton state. -/
def gsFull : GState := ⟨true, some PinMode.output, true⟩

/-- Stream delivering frame `[112, 0, 112, 0, 224]` and then idling. -/
def levels112 : Levels := mkLevels (frameCounters [112, 0, 112, 0, 224])

/-- Stream with `n` instant transitions (spin count 0, the level differing
on every even sample), then constantly high: the `(n+1)`-th wait times
out.  Pointwise equal to `mkLevels (List.replicate n 0)`, but cheaper to
evaluate. -/
def idleAfter (n : Nat) : Levels :=
  fun p => if p < 2 * n then decide (p % 2 = 1) else true

/-- Stream with 84 instant transitions, then idle: the 85th wait times
out after all 40 bits were packed. -/
def czeroLevels : Levels := idleAfter 84

/-- Stream with 83 instant transitions, then idle: the 84th wait times
out, also after all 40 bits were packed. -/
def c83Levels : Levels := idleAfter 83

/-- Stream with 10 instant transitions, then idle: the 11th wait times
out with only 3 bits packed. -/
def shortLevels : Levels := idleAfter 10

/-- Stream delivering a single 1-bit (spin count 23) and then idling:
the capture times out at transition 6 with one packed bit. -/
def oneBitLevels : Levels := mkLevels [0, 0, 0, 0, 23, 0]

/-- Stream alternating on every sample: all 85 transitions complete with
spin count 0. -/
def altLevels : Levels := fun p => decide (p % 2 = 1)

/-- Constantly-high stream: the very first wait times out. -/
def constTrueLevels : Levels := fun _ => true

/-! ### Arithmetic helper lemmas -/

set_option maxRecDepth 4000 in
lemma land_255_of_lt : ∀ x : Nat, x < 256 → x &&& 255 = x := by decide

set_option maxRecDepth 4000 in
lemma lor_one_of_double : ∀ v : Nat, v < 128 → (2 * v) ||| 1 = 2 * v + 1 := by decide

set_option maxRecDepth 4000 in
lemma frac_band_eq : ∀ v : Nat, v < 128 →
    (if v ≤ 9 then v / 10 else if v ≤ 100 then v / 100 else v / 1000)
      = (if v = 100 then 1 else 0) := by decide

lemma fracTerm_eq (b3 : Nat) : fracTerm b3 = if b3 % 128 = 100 then 1 else 0 := by
  have h : b3 % 128 < 128 := Nat.mod_lt _ (by norm_num)
  unfold fracTerm
  simpa using frac_band_eq (b3 % 128) h

lemma fracTerm_le_one (b3 : Nat) : fracTerm b3 ≤ 1 := by
  rw [fracTerm_eq]; split <;> simp

lemma tempOf_lt_1000 (b2 b3 : Nat) (h2 : b2 < 256) : tempOf b2 b3 < 1000 := by
  have hf := fracTerm_le_one b3
  unfold tempOf
  split <;> push_cast <;> omega

/-! ### Bit-list helper lemmas -/

lemma bitsToNat_foldl_acc (bs : List Bool) : ∀ acc : Nat,
    bs.foldl (fun acc b => 2 * acc + (if b then 1 else 0)) acc
      = acc * 2 ^ bs.length + bitsToNat bs := by
  induction bs with
  | nil => intro acc; simp [bitsToNat]
  | cons b bs ih =>
    intro acc
    have hb : bitsToNat (b :: bs)
        = (if b then 1 else 0) * 2 ^ bs.length + bitsToNat bs := by
      show List.foldl _ ((fun acc b => 2 * acc + (if b then 1 else 0)) 0 b) bs = _
      rw [ih]
      simp
    simp only [List.foldl_cons, List.length_cons]
    rw [ih, hb]
    ring

lemma bitsToNat_cons (b : Bool) (bs : List Bool) :
    bitsToNat (b :: bs) = (if b then 1 else 0) * 2 ^ bs.length + bitsToNat bs := by
  show List.foldl _ ((fun acc b => 2 * acc + (if b then 1 else 0)) 0 b) bs = _
  rw [bitsToNat_foldl_acc]
  simp

lemma bitsToNat_lt (bs : List Bool) : bitsToNat bs < 2 ^ bs.length := by
  induction bs with
  | nil => simp [bitsToNat]
  | cons b bs ih =>
    rw [bitsToNat_cons]
    have h2 : 2 ^ (b :: bs).length = 2 * 2 ^ bs.length := by
      simp [List.length_cons, Nat.pow_succ]; ring
    rw [List.length_cons] at h2 ⊢
    cases b <;> simp <;> omega

lemma bitsToNat_append_bit (bs : List Bool) (b : Bool) :
    bitsToNat (bs ++ [b]) = 2 * bitsToNat bs + (if b then 1 else 0) := by
  unfold bitsToNat
  rw [List.foldl_append]
  simp

/-! ### take/drop over an appended element -/

lemma take_append_le {α : Type} (n : Nat) (l₁ l₂ : List α) (h : n ≤ l₁.length) :
    (l₁ ++ l₂).take n = l₁.take n := by
  induction l₁ generalizing n with
  | nil =>
    have : n = 0 := by simpa using h
    subst this; simp
  | cons a l ih =>
    cases n with
    | zero => simp
    | succ m => simp only [List.cons_append, List.take_succ_cons]
                rw [ih m (by simpa using h)]

lemma drop_append_le {α : Type} (n : Nat) (l₁ l₂ : List α) (h : n ≤ l₁.length) :
    (l₁ ++ l₂).drop n = l₁.drop n ++ l₂ := by
  induction l₁ generalizing n with
  | nil =>
    have : n = 0 := by simpa using h
    subst this; simp
  | cons a l ih =>
    cases n with
    | zero => simp
    | succ m => simp only [List.cons_append, List.drop_succ_cons]
                rw [ih m (by simpa using h)]

/-! ### byteChunk lemmas -/

lemma byteChunk_nil (k : Nat) : byteChunk [] k = [] := by
  simp [byteChunk]

lemma byteChunk_length_le (bs : List Bool) (k : Nat) : (byteChunk bs k).length ≤ 8 := by
  simp [byteChunk, List.length_take]

lemma byteChunk_append_of_lt (bs : List Bool) (b : Bool) (k : Nat)
    (h : 8 * k + 8 ≤ bs.length) :
    byteChunk (bs ++ [b]) k = byteChunk bs k := by
  unfold byteChunk
  rw [drop_append_le (8 * k) bs [b] (by omega)]
  exact take_append_le 8 (bs.drop (8 * k)) [b] (by simp [List.length_drop]; omega)

lemma byteChunk_append_of_gt (bs : List Bool) (b : Bool) (k : Nat)
    (h : bs.length < 8 * k) :
    byteChunk (bs ++ [b]) k = [] ∧ byteChunk bs k = [] := by
  unfold byteChunk
  constructor
  · rw [List.drop_eq_nil_of_le (by simp [List.length_append]; omega)]
    simp
  · rw [List.drop_eq_nil_of_le (by omega)]
    simp

lemma byteChunk_append_at (bs : List Bool) (b : Bool) :
    byteChunk (bs ++ [b]) (bs.length / 8) = byteChunk bs (bs.length / 8) ++ [b] := by
  unfold byteChunk
  rw [drop_append_le (8 * (bs.length / 8)) bs [b] (by omega)]
  rw [List.take_of_length_le (l := bs.drop (8 * (bs.length / 8)) ++ [b])
        (by simp [List.length_append, List.length_drop]; omega)]
  rw [List.take_of_length_le (by simp [List.length_drop]; omega)]

lemma byteChunk_length_at (bs : List Bool) :
    (byteChunk bs (bs.length / 8)).length = bs.length % 8 := by
  simp [byteChunk, List.length_take, List.length_drop]
  omega

/-! ### getD/set pointwise lemmas -/

lemma getD_set_self (l : List Nat) (i v : Nat) (h : i < l.length) :
    (l.set i v).getD i 0 = v := by
  simp [List.getD_eq_getElem?_getD, List.getElem?_set_self h]

lemma getD_set_ne (l : List Nat) (i j v : Nat) (h : i ≠ j) :
    (l.set i v).getD j 0 = l.getD j 0 := by
  simp [List.getD_eq_getElem?_getD, List.getElem?_set_ne h]

/-! ### The capture loop packs bits MSB-first -/

lemma captureLoop_pack (levels : Levels) : ∀ (fuel : Nat) (st : CapSt) (bs : List Bool),
    st.j = bs.length →
    st.data.length = 5 →
    (∀ k, k < 5 → st.data.getD k 0 = bitsToNat (byteChunk bs k)) →
    ∀ st' tb, captureLoop levels fuel st = some (st', tb) →
      st'.j = bs.length + (dataBitsAux levels fuel st.i st.pos st.laststate).length ∧
      st'.data.length = 5 ∧
      ∀ k, k < 5 → st'.data.getD k 0 =
        bitsToNat (byteChunk (bs ++ dataBitsAux levels fuel st.i st.pos st.laststate) k) := by
  intro fuel
  induction fuel with
  | zero =>
    intro st bs hj hlen hdata st' tb hrun
    simp only [captureLoop, Option.some.injEq, Prod.mk.injEq] at hrun
    obtain ⟨rfl, rfl⟩ := hrun
    simp only [dataBitsAux, List.length_nil, List.append_nil, Nat.add_zero]
    exact ⟨hj, hlen, hdata⟩
  | succ fuel ih =>
    intro st bs hj hlen hdata st' tb hrun
    simp only [captureLoop] at hrun
    simp only [dataBitsAux]
    rcases hsc : spinWait levels st.laststate st.pos with ⟨c, q⟩
    rw [hsc] at hrun
    simp only at hrun
    by_cases h255 : c = 255
    · rw [if_pos h255] at hrun
      rw [if_pos h255]
      simp only [Option.some.injEq, Prod.mk.injEq] at hrun
      obtain ⟨rfl, rfl⟩ := hrun
      simp only [List.length_nil, List.append_nil, Nat.add_zero]
      exact ⟨hj, hlen, hdata⟩
    · rw [if_neg h255] at hrun
      rw [if_neg h255]
      by_cases hpk : 4 ≤ st.i ∧ st.i % 2 = 0
      · rw [if_pos hpk] at hrun
        rw [if_pos hpk]
        by_cases hidx : st.j / 8 < 5
        · rw [if_pos hidx] at hrun
          -- value of the byte being extended
          have hvlen : (byteChunk bs (st.j / 8)).length = st.j % 8 := by
            rw [hj] at *
            exact byteChunk_length_at bs
          have hvlt : st.data.getD (st.j / 8) 0 < 128 := by
            rw [hdata (st.j / 8) hidx]
            have h1 := bitsToNat_lt (byteChunk bs (st.j / 8))
            have h2 : (2 : Nat) ^ (byteChunk bs (st.j / 8)).length ≤ 2 ^ 7 := by
              apply Nat.pow_le_pow_right (by norm_num)
              rw [hvlen]; omega
            calc bitsToNat (byteChunk bs (st.j / 8))
                < 2 ^ (byteChunk bs (st.j / 8)).length := h1
              _ ≤ 2 ^ 7 := h2
          set v := st.data.getD (st.j / 8) 0 with hv
          have hshift : v <<< 1 % 256 = 2 * v := by
            rw [Nat.shiftLeft_eq]
            have : v * 2 ^ 1 = 2 * v := by ring
            rw [this, Nat.mod_eq_of_lt (by omega)]
          have hb2 : (if count_ < c then v <<< 1 % 256 ||| 1 else v <<< 1 % 256)
              = 2 * v + (if decide (count_ < c) then 1 else 0) := by
            by_cases hc : count_ < c
            · rw [if_pos hc, hshift, lor_one_of_double v hvlt]
              simp [hc]
            · rw [if_neg hc, hshift]
              simp [hc]
          rw [hb2] at hrun
          set b : Bool := decide (count_ < c) with hbdef
          set newData := st.data.set (st.j / 8) (2 * v + (if b then 1 else 0)) with hnd
          have hnlen : newData.length = 5 := by
            rw [hnd, List.length_set, hlen]
          have hnpt : ∀ k, k < 5 → newData.getD k 0 = bitsToNat (byteChunk (bs ++ [b]) k) := by
            intro k hk
            by_cases hkk : k = st.j / 8
            · subst hkk
              rw [hnd, getD_set_self _ _ _ (by omega)]
              rw [hj, byteChunk_append_at, bitsToNat_append_bit]
              rw [← hj]
              rw [← hdata (st.j / 8) hidx]
            · rw [hnd, getD_set_ne _ _ _ _ (fun h => hkk h.symm)]
              rcases Nat.lt_or_ge k (st.j / 8) with hlt | hge
              · rw [byteChunk_append_of_lt bs b k (by rw [← hj]; omega)]
                exact hdata k hk
              · have hgt : st.j / 8 < k := by omega
                have hgt8 : bs.length < 8 * k := by rw [← hj]; omega
                obtain ⟨h1, h2⟩ := byteChunk_append_of_gt bs b k hgt8
                rw [h1]
                rw [hdata k hk, h2]
          have := ih { i := st.i + 1, j := st.j + 1, pos := q + 1, laststate := levels q,
                       data := newData } (bs ++ [b])
            (by simp [hj]) hnlen hnpt st' tb hrun
          simp only at this
          obtain ⟨hj', hlen', hpt'⟩ := this
          refine ⟨?_, hlen', ?_⟩
          · rw [hj']
            simp only [List.length_append, List.length_cons, List.length_nil]
            omega
          · intro k hk
            rw [hpt' k hk]
            simp [List.append_assoc]
        · rw [if_neg hidx] at hrun
          exact absurd hrun (by simp)
      · rw [if_neg hpk] at hrun
        rw [if_neg hpk]
        have := ih { i := st.i + 1, j := st.j, pos := q + 1, laststate := levels q,
                     data := st.data } bs hj hlen hdata st' tb hrun
        simpa using this

/-! ### The bit count tracks the transition index: `j = (i - 3) / 2` -/

lemma captureLoop_j_eq (levels : Levels) : ∀ (fuel : Nat) (st st' : CapSt) (tb : Bool),
    st.j = (st.i - 3) / 2 → captureLoop levels fuel st = some (st', tb) →
    st'.j = (st'.i - 3) / 2 := by
  intro fuel
  induction fuel with
  | zero =>
    intro st st' tb hj hrun
    simp only [captureLoop, Option.some.injEq, Prod.mk.injEq] at hrun
    obtain ⟨rfl, rfl⟩ := hrun
    exact hj
  | succ fuel ih =>
    intro st st' tb hj hrun
    simp only [captureLoop] at hrun
    rcases hsc : spinWait levels st.laststate st.pos with ⟨c, q⟩
    rw [hsc] at hrun
    simp only at hrun
    by_cases h255 : c = 255
    · rw [if_pos h255] at hrun
      simp only [Option.some.injEq, Prod.mk.injEq] at hrun
      obtain ⟨rfl, rfl⟩ := hrun
      simpa using hj
    · rw [if_neg h255] at hrun
      by_cases hpk : 4 ≤ st.i ∧ st.i % 2 = 0
      · rw [if_pos hpk] at hrun
        by_cases hidx : st.j / 8 < 5
        · rw [if_pos hidx] at hrun
          exact ih _ st' tb (by simp only; omega) hrun
        · rw [if_neg hidx] at hrun
          exact absurd hrun (by simp)
      · rw [if_neg hpk] at hrun
        exact ih _ st' tb (by simp only; omega) hrun

/-! ### Capture-level corollaries -/

lemma capture_pack (levels : Levels) (st : CapSt) (tb : Bool)
    (h : capture levels = some (st, tb)) :
    st.j = (dataBits levels).length ∧ st.data.length = 5 ∧
    ∀ k, k < 5 → st.data.getD k 0 = bitsToNat (byteChunk (dataBits levels) k) := by
  have hinit : ∀ k, k < 5 → initCapSt.data.getD k 0 = bitsToNat (byteChunk [] k) := by
    intro k hk
    interval_cases k <;> simp [initCapSt, byteChunk, bitsToNat]
  have := captureLoop_pack levels maxtimings_ initCapSt [] rfl rfl hinit st tb h
  simpa [dataBits, initCapSt] using this

lemma capture_j_eq (levels : Levels) (st : CapSt) (tb : Bool)
    (h : capture levels = some (st, tb)) : st.j = (st.i - 3) / 2 :=
  captureLoop_j_eq levels maxtimings_ initCapSt st tb (by simp [initCapSt]) h

lemma capture_data_lt (levels : Levels) (st : CapSt) (tb : Bool)
    (h : capture levels = some (st, tb)) : ∀ k, st.data.getD k 0 < 256 := by
  obtain ⟨-, hlen, hpt⟩ := capture_pack levels st tb h
  intro k
  by_cases hk : k < 5
  · rw [hpt k hk]
    have h1 := bitsToNat_lt (byteChunk (dataBits levels) k)
    have h2 : (2 : Nat) ^ (byteChunk (dataBits levels) k).length ≤ 2 ^ 8 :=
      Nat.pow_le_pow_right (by norm_num) (byteChunk_length_le _ _)
    omega
  · rw [List.getD_eq_getElem?_getD, List.getElem?_eq_none (by omega)]
    simp

/-! ### Unfolding `read_data` over a completed capture -/

lemma read_data_run (levels : Levels) (gs : GState) (pm : PinMode) (st : CapSt) (tb : Bool)
    (hin : gs.in_pin = true) (hout : gs.out_pin = some pm) (hdel : gs.delay = true)
    (hcap : capture levels = some (st, tb)) :
    read_data levels gs =
      if 40 ≤ st.j ∧ checksumOk st.data = true then
        some ({ gs with out_pin := some PinMode.output }, Except.ok (convertReading st.data))
      else
        some ({ gs with out_pin := some PinMode.output }, Except.error errMsg) := by
  unfold read_data
  rw [hin, hout, hdel, hcap]
  by_cases hv : 40 ≤ st.j ∧ checksumOk st.data = true
  · have ht : (convertReading st.data).1 < 1000 :=
      tempOf_lt_1000 _ _ (capture_data_lt levels st tb hcap 2)
    have hh : (convertReading st.data).2 < 1000 := by
      have := capture_data_lt levels st tb hcap 0
      simp only [convertReading]
      omega
    simp [hv, intoPullUpInput, intoPushPullOutput, ht, hh]
  · simp [hv, intoPullUpInput, intoPushPullOutput]

/-! ## Claim theorems -/

set_option maxRecDepth 20000 in
/-- C1 (counterexample): on the stream `czeroLevels` the capture hits the
255-tick cap on the 85th transition wait (the timeout flag is `true`), yet
`read_data` returns `Ok (0, 0)`: "no transition wait timing out" is not
necessary for success, so success is not characterized as the claim
states. -/
theorem read_data_ok_despite_timeout :
    (capture czeroLevels).map Prod.snd = some true ∧
    read_data czeroLevels gsFull = some (gsFull, Except.ok (0, 0)) := by
  exact ⟨rfl, rfl⟩

/-- C1 (amended): with the pin and delay singletons present and the capture
returning (no panic), `read_data` returns `Ok` (with the converted frame)
exactly when at least 40 bits were packed and the checksum byte matches the
truncated sum; in every other returning case it yields the single error
outcome. -/
theorem read_data_ok_iff_bits_and_checksum (levels : Levels) (gs : GState) (pm : PinMode)
    (st : CapSt) (tb : Bool) (hin : gs.in_pin = true) (hout : gs.out_pin = some pm)
    (hdel : gs.delay = true) (hcap : capture levels = some (st, tb)) :
    (read_data levels gs
        = some ({ gs with out_pin := some PinMode.output }, Except.ok (convertReading st.data))
      ↔ 40 ≤ st.j ∧ checksumOk st.data = true) ∧
    (¬(40 ≤ st.j ∧ checksumOk st.data = true) →
      read_data levels gs
        = some ({ gs with out_pin := some PinMode.output }, Except.error errMsg)) := by
  have hrun := read_data_run levels gs pm st tb hin hout hdel hcap
  by_cases hv : 40 ≤ st.j ∧ checksumOk st.data = true
  · rw [hrun, if_pos hv]
    exact ⟨⟨fun _ => hv, fun _ => rfl⟩, fun h => absurd hv h⟩
  · rw [hrun, if_neg hv]
    refine ⟨⟨fun h => ?_, fun h => absurd h hv⟩, fun _ => rfl⟩
    simp only [Option.some.injEq, Prod.mk.injEq] at h
    exact absurd h.2 (by simp)

set_option maxRecDepth 20000 in
theorem read_data_ok_iff_bits_and_checksum_witness :
    (read_data czeroLevels gsFull
        = some (gsFull, Except.ok (convertReading [0, 0, 0, 0, 0]))
      ↔ 40 ≤ 40 ∧ checksumOk [0, 0, 0, 0, 0] = true) ∧
    (¬(40 ≤ 40 ∧ checksumOk [0, 0, 0, 0, 0] = true) →
      read_data czeroLevels gsFull = some (gsFull, Except.error errMsg)) :=
  read_data_ok_iff_bits_and_checksum czeroLevels gsFull PinMode.output
    ⟨84, 40, 424, true, [0, 0, 0, 0, 0]⟩ true rfl rfl rfl (by rfl)

set_option maxRecDepth 20000 in
/-- C2 (counterexample): on `c83Levels` the 84th transition wait reaches
the 255 cap (timeout flag `true`) at `i = 83`, yet the bit count `j` is 40
(not below 40) and `read_data` succeeds with `Ok (0, 0)`. -/
theorem read_data_ok_after_late_timeout :
    (capture c83Levels).map (fun p => (p.1.i, p.1.j, p.2)) = some (83, 40, true) ∧
    read_data c83Levels gsFull = some (gsFull, Except.ok (0, 0)) := by
  exact ⟨rfl, rfl⟩

/-- C2 (amended): if a spin count reaches the 255 cap on any of the first
83 transition waits (timeout with `i ≤ 82`), then fewer than 40 bits were
packed and `read_data` returns the error outcome; a timeout at transition
83 or 84 instead occurs after all 40 bits are packed. -/
theorem timeout_before_transition_83_forces_failure (levels : Levels) (st : CapSt)
    (hcap : capture levels = some (st, true)) (hi : st.i ≤ 82) :
    st.j < 40 ∧ ∀ gs pm, gs.in_pin = true → gs.out_pin = some pm → gs.delay = true →
      read_data levels gs
        = some ({ gs with out_pin := some PinMode.output }, Except.error errMsg) := by
  have hj := capture_j_eq levels st true hcap
  have hj40 : st.j < 40 := by omega
  refine ⟨hj40, fun gs pm hin hout hdel => ?_⟩
  rw [read_data_run levels gs pm st true hin hout hdel hcap,
    if_neg (fun h => absurd h.1 (by omega))]

set_option maxRecDepth 20000 in
theorem timeout_before_transition_83_forces_failure_witness :
    (3 : Nat) < 40 ∧
    read_data shortLevels gsFull = some (gsFull, Except.error errMsg) := by
  have h := timeout_before_transition_83_forces_failure shortLevels
      ⟨10, 3, 276, true, [0, 0, 0, 0, 0]⟩ (by rfl) (by norm_num)
  exact ⟨h.1, h.2 gsFull PinMode.output rfl rfl rfl⟩

/-- C3 (counterexample): for frame byte[3] = 100 the three-band rule lands
in the band `10..=100` and contributes `100 / 100 = 1`, not 0, so the
converted magnitude for `byte[2] = 25` is 26, not 25. -/
theorem fracTerm_100_ne_zero : fracTerm 100 = 1 ∧ tempOf 25 100 = 26 := by
  constructor <;> rfl

/-- C3 (amended): the fractional contribution of the three-band rule is 0
for every byte[3] except those with `byte[3] mod 128 = 100`, where it is 1;
hence the converted temperature magnitude equals byte[2] except in that
single case, where it is byte[2] + 1. -/
theorem fracTerm_eq_ite_100 (b2 b3 : Nat) :
    fracTerm b3 = (if b3 % 128 = 100 then 1 else 0) ∧
    (tempOf b2 b3).natAbs = b2 + (if b3 % 128 = 100 then 1 else 0) := by
  refine ⟨fracTerm_eq b3, ?_⟩
  unfold tempOf
  rw [fracTerm_eq b3]
  by_cases h100 : b3 % 128 = 100 <;> simp only [h100, if_pos, if_neg, ite_true, ite_false] <;>
    split <;> omega

set_option maxRecDepth 20000 in
/-- C4 (code bug): on the alternating stream `altLevels` all transition
waits complete instantly; after 84 loop iterations all 40 bits are packed
(`j = 40`, no timeout), and the 85th iteration is an even transition with
`i = 84 ≥ 4`, so the source computes `index = j / 8 = 5` and performs
`data[5] <<= 1` on the 5-element array — an out-of-bounds panic, embedded
here as `capture = none`. -/
theorem capture_oob_panics_on_alternating_line :
    captureLoop altLevels 84 initCapSt
      = some (⟨84, 40, 168, true, [0, 0, 0, 0, 0]⟩, false) ∧
    capture altLevels = none := by
  exact ⟨rfl, rfl⟩

set_option maxRecDepth 700000 in
/-- C5 (counterexample): the interrupt handler writes the fixed pair
`(112, 112)` on a failed decode — a value below 1000, and identical to the
reading `read_data` itself produces for the checksum-valid frame
`[112, 0, 112, 0, 224]`, so the sentinel is not distinguishable from every
reading the decoder can deliver. -/
theorem sentinel_collides_with_decodable_reading :
    TIMER1 constTrueLevels 1 gsFull (some (0, 0)) = some (2, gsFull, some (112, 112)) ∧
    read_data levels112 gsFull = some (gsFull, Except.ok (112, 112)) ∧
    ¬((1000 : Int) ≤ 112) := by
  refine ⟨rfl, by rfl, by norm_num⟩

/-- C5 (amended): whenever `read_data` returns an error and the update gate
fires with the `DATA` slot occupied, `TIMER1` overwrites the slot with the
fixed pair `(112, 112)` (not a value ≥ 1000). -/
theorem timer1_writes_fixed_sentinel_on_error (levels : Levels) (tc : Nat) (gs gs' : GState)
    (e : String) (slot : Int × Int) (hgate : tc % UPDATE_INTERVAL = 1)
    (hread : read_data levels gs = some (gs', Except.error e)) :
    TIMER1 levels tc gs (some slot) = some (tc + 1, gs', some (112, 112)) := by
  unfold TIMER1
  rw [hread]
  simp [hgate]

set_option maxRecDepth 20000 in
theorem timer1_writes_fixed_sentinel_on_error_witness :
    TIMER1 constTrueLevels 1 gsFull (some (0, 0)) = some (2, gsFull, some (112, 112)) :=
  timer1_writes_fixed_sentinel_on_error constTrueLevels 1 gsFull gsFull errMsg (0, 0)
    rfl (by rfl)

/-- C6: whenever the three singletons are present (so the capture runs) and
`read_data` returns, the `OUT_PIN` slot of the final state holds the pin in
push-pull output mode, whatever the outcome. -/
theorem read_data_restores_output_pin (levels : Levels) (gs : GState) (pm : PinMode)
    (gs' : GState) (r : Except String (Int × Int)) (hin : gs.in_pin = true)
    (hout : gs.out_pin = some pm) (hdel : gs.delay = true)
    (hret : read_data levels gs = some (gs', r)) :
    gs'.out_pin = some PinMode.output := by
  rcases hcap : capture levels with _ | ⟨st, tb⟩
  · have hnone : read_data levels gs = none := by
      unfold read_data
      rw [hin, hout, hdel, hcap]
      simp
    rw [hnone] at hret
    cases hret
  · rw [read_data_run levels gs pm st tb hin hout hdel hcap] at hret
    split at hret <;>
    · simp only [Option.some.injEq, Prod.mk.injEq] at hret
      rw [← hret.1]

set_option maxRecDepth 20000 in
theorem read_data_restores_output_pin_witness : gsFull.out_pin = some PinMode.output :=
  read_data_restores_output_pin constTrueLevels gsFull PinMode.output gsFull
    (Except.error errMsg) rfl rfl rfl (by rfl)

/-- C7: the high bit of byte[3] is a pure sign flag: with it set the
converted temperature is ≤ 0, with it clear the temperature is ≥ 0, and
setting it on any byte[3] < 128 exactly negates the converted value,
independently of the mod-128 magnitude. -/
theorem tempOf_sign_flag (b2 b3 : Nat) :
    (128 ≤ b3 → tempOf b2 b3 ≤ 0) ∧ (b3 < 128 → 0 ≤ tempOf b2 b3) ∧
    (b3 < 128 → tempOf b2 (b3 + 128) = -tempOf b2 b3) := by
  refine ⟨fun h => ?_, fun h => ?_, fun h => ?_⟩
  · unfold tempOf
    rw [if_pos h]
    have : (0 : Int) ≤ (b2 : Int) + (fracTerm b3 : Int) := by positivity
    omega
  · unfold tempOf
    rw [if_neg (by omega)]
    positivity
  · unfold tempOf
    rw [if_pos (by omega), if_neg (by omega)]
    have hfr : fracTerm (b3 + 128) = fracTerm b3 := by
      rw [fracTerm_eq, fracTerm_eq, Nat.add_mod_right]
    rw [hfr]

theorem tempOf_sign_flag_witness :
    tempOf 25 200 ≤ 0 ∧ 0 ≤ tempOf 25 72 ∧ tempOf 25 (72 + 128) = -tempOf 25 72 :=
  ⟨(tempOf_sign_flag 25 200).1 (by norm_num), (tempOf_sign_flag 25 72).2.1 (by norm_num),
    (tempOf_sign_flag 25 72).2.2 (by norm_num)⟩

/-- C8: whenever a capture returns, its bit count equals the number of
classified data bits — one bit per even-indexed transition from the fifth
on, bit value 1 exactly when the spin count exceeds 22 — and the 5 data
bytes are those bits packed MSB-first, 8 per byte, in capture order. -/
theorem capture_packs_msb_first (levels : Levels) (st : CapSt) (tb : Bool)
    (hcap : capture levels = some (st, tb)) :
    st.j = (dataBits levels).length ∧
    st.data = (List.range 5).map (fun k => bitsToNat (byteChunk (dataBits levels) k)) := by
  obtain ⟨hj, hlen, hpt⟩ := capture_pack levels st tb hcap
  refine ⟨hj, ?_⟩
  apply List.ext_getElem
  · simp [hlen]
  · intro i h1 h2
    have hi5 : i < 5 := by simp_all
    simp only [List.getElem_map, List.getElem_range]
    have h := hpt i hi5
    rwa [List.getD_eq_getElem?_getD, List.getElem?_eq_getElem h1, Option.getD_some] at h

set_option maxRecDepth 20000 in
theorem capture_packs_msb_first_witness :
    (1 : Nat) = (dataBits oneBitLevels).length ∧
    [1, 0, 0, 0, 0]
      = (List.range 5).map (fun k => bitsToNat (byteChunk (dataBits oneBitLevels) k)) :=
  capture_packs_msb_first oneBitLevels ⟨6, 1, 291, true, [1, 0, 0, 0, 0]⟩ true (by rfl)

/-- C9: the conversion maps the checksum-valid frame `[65, 0, 25, 0, 90]`
to the reading `(25, 65)` and the checksum-valid frame
`[65, 0, 25, 128, 218]` (sign bit set, mod-128 magnitude 0) to `(-25, 65)`. -/
theorem convert_scenarios_A_B :
    checksumOk [65, 0, 25, 0, 90] = true ∧ convertReading [65, 0, 25, 0, 90] = (25, 65) ∧
    checksumOk [65, 0, 25, 128, 218] = true ∧
    convertReading [65, 0, 25, 128, 218] = (-25, 65) := by
  refine ⟨rfl, ?_, rfl, ?_⟩ <;> decide

/-- C10: for all byte values (including frames whose byte sum exceeds 255),
the checksum test compares byte[4] with `(byte[0] + byte[1] + byte[2] +
byte[3]) mod 256`: the wrapping `u8` sums collapse to one mod-256 sum, and
the `& 0xFF` mask is the identity on the already-reduced sum, so the
truncated and untruncated comparisons agree. -/
theorem checksum_is_mod256_sum (b0 b1 b2 b3 b4 : Nat) (h0 : b0 < 256) (h1 : b1 < 256)
    (h2 : b2 < 256) (h3 : b3 < 256) (h4 : b4 < 256) :
    (checksumOk [b0, b1, b2, b3, b4] = true ↔ b4 = (b0 + b1 + b2 + b3) % 256) ∧
    ((((b0 + b1) % 256 + b2) % 256 + b3) % 256) &&& 0xFF
      = (((b0 + b1) % 256 + b2) % 256 + b3) % 256 := by
  have hs : (((b0 + b1) % 256 + b2) % 256 + b3) % 256 < 256 := Nat.mod_lt _ (by norm_num)
  have hmask := land_255_of_lt _ hs
  refine ⟨?_, hmask⟩
  unfold checksumOk
  simp only [List.getD_eq_getElem?_getD]
  norm_num
  rw [land_255_of_lt ((b0 + b1 + b2 + b3) % 256) (Nat.mod_lt _ (by norm_num))]

theorem checksum_is_mod256_sum_witness :
    (checksumOk [200, 100, 50, 25, 119] = true ↔ 119 = (200 + 100 + 50 + 25) % 256) ∧
    ((((200 + 100) % 256 + 50) % 256 + 25) % 256) &&& 0xFF
      = (((200 + 100) % 256 + 50) % 256 + 25) % 256 :=
  checksum_is_mod256_sum 200 100 50 25 119 (by norm_num) (by norm_num) (by norm_num)
    (by norm_num) (by norm_num)
